import Mathlib

/-!
# Verification of the brickwave signal-synthesis core

Shallow embedding of the signal pipeline of the `brickwave` repository:
the seeded linear-congruential PRNG, the white/pink/brown noise
synthesizer (`src/generateNoise.ts`), the ambient-layer synthesizers and
layer mixer (`src/ambientLayers.ts`), and the envelope / stereo / PCM /
WAV-container encoder (`src/wavWriter.ts`).

JavaScript `number` values are modelled as exact rationals (`ℚ`) in the
purely arithmetic parts and as reals (`ℝ`) where the code calls the
transcendental functions `Math.sin`, `Math.exp`, `Math.tanh`.  Integer
state (the PRNG register, byte values) is modelled as `ℕ`/`ℤ` with the
`& 0x7fffffff` mask rendered as `% 2^31` (identical on the non-negative
integer range involved).  For the PRNG contract itself, whose content
hinges on rounding (the product `state * 1103515245` exceeds `2^53` for
most states), the binary64 evaluation of the state update is modelled
exactly: every intermediate value of that data flow is an integer, so
IEEE-754 round-to-nearest-even is itself expressible in `ℕ`.
-/

namespace Brickwave

/-! ## Deterministic PRNG

`class SeededRandom` (defined identically in `src/generateNoise.ts` and
`src/ambientLayers.ts`):

    random(): number {
      this.seed = (this.seed * 1103515245 + 12345) & 0x7fffffff;
      return this.seed / 0x7fffffff;
    }

The constructor is `seed ?? Math.floor(Math.random() * 0x7fffffff)`; the
call to `Math.random()` is modelled by an explicit `entropy` argument so
that (non-)dependence on it can be stated. -/

/-- One LCG state update `(state * 1103515245 + 12345) & 0x7fffffff`
in exact integer arithmetic — the idealization under which the noise
and layer sample streams are modelled.  `jsLcgNext` below is the
binary64-faithful update, used where the claim under examination is
about the update arithmetic itself; the two agree for all states up to
`8162278` (see `jsLcgNext_exact`). -/
def lcgNext (s : ℕ) : ℕ := (s * 1103515245 + 12345) % 2147483648

/-- Round a nonnegative integer to the nearest multiple of `m`, ties to
the even quotient. -/
def roundToMultiple (n m : ℕ) : ℕ :=
  let q := n / m
  let r := n % m
  if 2 * r < m then q * m
  else if m < 2 * r then (q + 1) * m
  else if q % 2 = 0 then q * m else (q + 1) * m

/-- The exponent of the unit in the last place of the IEEE-754 binary64
value nearest to the integer `n`: `0` while `n < 2^53` (such integers
are exactly representable), `bitlength n - 53` above.  The search bound
`64` makes this correct for every `n < 2^116`, far beyond any value in
the PRNG data flow (which stays below `2^62`). -/
def ulpExp (n : ℕ) : ℕ := Nat.findGreatest (fun k => 2 ^ (52 + k) ≤ n) 64

/-- Round a nonnegative integer to the nearest IEEE-754 binary64 value
(round-to-nearest, ties to even) — the rounding JavaScript applies to
the result of every arithmetic operator.  The result is again an
integer, so the update stays in `ℕ`. -/
def roundDouble (n : ℕ) : ℕ := roundToMultiple n (2 ^ ulpExp n)

/-- The state update `(this.seed * 1103515245 + 12345) & 0x7fffffff` as
the engine executes it: the product and then the sum are each rounded
to binary64, after which `& 0x7fffffff` truncates (`ToInt32`) and
masks, i.e. reduces the (integer) value mod `2^31`. -/
def jsLcgNext (s : ℕ) : ℕ :=
  roundDouble (roundDouble (s * 1103515245) + 12345) % 2147483648

/-- `SeededRandom.random()` with the binary64 state update: returns the
emitted value `state / 0x7fffffff` paired with the advanced state.  The
quotient is kept exact: the final division's binary64 rounding cannot
move a value bounded by `(2^31-2)/(2^31-1) ≈ 1 - 4.7e-10` up to `1`
(the gap to `1` exceeds the ulp `2^-53` by seven orders of magnitude),
so it is irrelevant to every statement proved about the output. -/
def jsRandom (s : ℕ) : ℚ × ℕ := (((jsLcgNext s : ℚ)) / 2147483647, jsLcgNext s)

/-- `constructor(seed?)`: `this.seed = seed ?? Math.floor(Math.random() * 0x7fffffff)`,
with the `Math.random()` draw supplied as `entropy`. -/
def mkSeed (seed : Option ℕ) (entropy : ℕ) : ℕ := seed.getD entropy

/-! ## Noise synthesizer (`src/generateNoise.ts`, `generateNoise`) -/

/-- Failure modes of `generateNoise`: the explicit
`throw new Error("Unknown noise type: ...")`, and the `RangeError` raised
by `new Float32Array(length)` when `Math.floor(duration * sampleRate)`
is negative. -/
inductive GenError where
  | unknownType (t : String) : GenError
  | invalidLength : GenError
deriving DecidableEq

/-- The white draw `rng.random() * 2 - 1` as a function of the advanced
PRNG state. -/
def whiteVal (s : ℕ) : ℚ := (s : ℚ) / 2147483647 * 2 - 1

/-- The `white` branch loop: `buffer[i] = rng.random() * 2 - 1`. -/
def whiteLoop (s : ℕ) : ℕ → List ℚ
  | 0 => []
  | n + 1 =>
    let s' := lcgNext s
    whiteVal s' :: whiteLoop s' n

/-- The `brown` branch loop:
`buffer[i] = lastOut = Math.max(-1, Math.min(1, (lastOut + 0.02 * white) * 0.98))`. -/
def brownLoop (s : ℕ) (lastOut : ℚ) : ℕ → List ℚ
  | 0 => []
  | n + 1 =>
    let s' := lcgNext s
    let white := whiteVal s'
    let out := max (-1) (min 1 ((lastOut + 0.02 * white) * 0.98))
    out :: brownLoop s' out n

/-- The `pink` branch loop (Paul Kellett filter as written in the source,
including the direct `white * 0.5362` term of the sum). -/
def pinkLoop (s : ℕ) (b0 b1 b2 b3 b4 b5 b6 : ℚ) : ℕ → List ℚ
  | 0 => []
  | n + 1 =>
    let s' := lcgNext s
    let white := whiteVal s'
    let nb0 := 0.99886 * b0 + white * 0.0555179
    let nb1 := 0.99332 * b1 + white * 0.0750759
    let nb2 := 0.96900 * b2 + white * 0.1538520
    let nb3 := 0.86650 * b3 + white * 0.3104856
    let nb4 := 0.55000 * b4 + white * 0.5329522
    let nb5 := -0.7616 * b5 - white * 0.0168980
    let pink := nb0 + nb1 + nb2 + nb3 + nb4 + nb5 + b6 + white * 0.5362
    (pink * 0.11) :: pinkLoop s' nb0 nb1 nb2 nb3 nb4 nb5 (white * 0.115926) n

/-- `generateNoise(type, duration, sampleRate, seed)`.
`length = Math.floor(duration * sampleRate)`; `new Float32Array(length)`
raises a `RangeError` when `length < 0` (before the unknown-type check is
reached), modelled by `GenError.invalidLength`. -/
def generateNoise (type : String) (duration sampleRate : ℚ)
    (seed : Option ℕ) (entropy : ℕ) : Except GenError (List ℚ) :=
  let lengthZ : ℤ := ⌊duration * sampleRate⌋
  if lengthZ < 0 then .error .invalidLength
  else
    let length := lengthZ.toNat
    let s := mkSeed seed entropy
    if type = "white" then .ok (whiteLoop s length)
    else if type = "brown" then .ok (brownLoop s 0 length)
    else if type = "pink" then .ok (pinkLoop s 0 0 0 0 0 0 0 length)
    else .error (.unknownType type)

/-! ### Basic length lemmas for the noise loops -/

theorem whiteLoop_length (s : ℕ) (n : ℕ) : (whiteLoop s n).length = n := by
  induction n generalizing s with
  | zero => rfl
  | succ n ih => simp [whiteLoop, ih]

theorem brownLoop_length (s : ℕ) (lastOut : ℚ) (n : ℕ) :
    (brownLoop s lastOut n).length = n := by
  induction n generalizing s lastOut with
  | zero => rfl
  | succ n ih => simp [brownLoop, ih]

theorem pinkLoop_length (s : ℕ) (b0 b1 b2 b3 b4 b5 b6 : ℚ) (n : ℕ) :
    (pinkLoop s b0 b1 b2 b3 b4 b5 b6 n).length = n := by
  induction n generalizing s b0 b1 b2 b3 b4 b5 b6 with
  | zero => rfl
  | succ n ih => simp [pinkLoop, ih]

/-! ### Branch lemmas for `generateNoise` -/

theorem generateNoise_neg_length (t : String) (d r : ℚ) (seed : Option ℕ) (e : ℕ)
    (h : ⌊d * r⌋ < 0) :
    generateNoise t d r seed e = .error .invalidLength := by
  simp [generateNoise, h]

theorem generateNoise_white (d r : ℚ) (seed : Option ℕ) (e : ℕ)
    (h : 0 ≤ ⌊d * r⌋) :
    generateNoise "white" d r seed e =
      .ok (whiteLoop (mkSeed seed e) (⌊d * r⌋).toNat) := by
  simp [generateNoise, not_lt.mpr h]

theorem generateNoise_brown (d r : ℚ) (seed : Option ℕ) (e : ℕ)
    (h : 0 ≤ ⌊d * r⌋) :
    generateNoise "brown" d r seed e =
      .ok (brownLoop (mkSeed seed e) 0 (⌊d * r⌋).toNat) := by
  simp [generateNoise, not_lt.mpr h]

theorem generateNoise_pink (d r : ℚ) (seed : Option ℕ) (e : ℕ)
    (h : 0 ≤ ⌊d * r⌋) :
    generateNoise "pink" d r seed e =
      .ok (pinkLoop (mkSeed seed e) 0 0 0 0 0 0 0 (⌊d * r⌋).toNat) := by
  simp [generateNoise, not_lt.mpr h]

theorem generateNoise_unknown (t : String) (d r : ℚ) (seed : Option ℕ) (e : ℕ)
    (h : 0 ≤ ⌊d * r⌋) (h1 : t ≠ "white") (h2 : t ≠ "brown") (h3 : t ≠ "pink") :
    generateNoise t d r seed e = .error (.unknownType t) := by
  simp [generateNoise, not_lt.mpr h, h1, h2, h3]

/-! ### The pink-noise per-sample recurrences, in the words of the spec

The spec describes the pink branch by six filter-state sequences
`b0..b5` (starting at 0, updated per sample from the current white draw
with the fixed pole coefficients), a seventh term `b6` equal to the
previous iteration's `white * 0.115926`, a sum, and the `0.11` scale.
The sequences below are written from that description; `pinkSampleSpec`
adds the `white * 0.5362` direct term that is present in the source but
absent from the spec sentence, while `pinkClaimLoop` renders the claim
exactly as written (sum of `b0..b6` only). -/

/-- The white draw consumed at sample `i` (the `i+1`-st PRNG draw). -/
def pinkWhite (s : ℕ) (i : ℕ) : ℚ := whiteVal (lcgNext^[i + 1] s)

/-- Spec sequence `b0`. -/
def pinkB0 (s : ℕ) : ℕ → ℚ
  | 0 => 0
  | i + 1 => 0.99886 * pinkB0 s i + pinkWhite s i * 0.0555179

/-- Spec sequence `b1`. -/
def pinkB1 (s : ℕ) : ℕ → ℚ
  | 0 => 0
  | i + 1 => 0.99332 * pinkB1 s i + pinkWhite s i * 0.0750759

/-- Spec sequence `b2`. -/
def pinkB2 (s : ℕ) : ℕ → ℚ
  | 0 => 0
  | i + 1 => 0.96900 * pinkB2 s i + pinkWhite s i * 0.1538520

/-- Spec sequence `b3`. -/
def pinkB3 (s : ℕ) : ℕ → ℚ
  | 0 => 0
  | i + 1 => 0.86650 * pinkB3 s i + pinkWhite s i * 0.3104856

/-- Spec sequence `b4`. -/
def pinkB4 (s : ℕ) : ℕ → ℚ
  | 0 => 0
  | i + 1 => 0.55000 * pinkB4 s i + pinkWhite s i * 0.5329522

/-- Spec sequence `b5`. -/
def pinkB5 (s : ℕ) : ℕ → ℚ
  | 0 => 0
  | i + 1 => -0.7616 * pinkB5 s i - pinkWhite s i * 0.0168980

/-- Spec sequence `b6`: the previous iteration's `white * 0.115926`. -/
def pinkB6 (s : ℕ) : ℕ → ℚ
  | 0 => 0
  | i + 1 => pinkWhite s i * 0.115926

/-- The `i`-th pink sample as the source computes it, phrased over the
spec's sequences: the updated `b0..b5`, the pre-update `b6`, plus the
direct term `white * 0.5362`, scaled by `0.11`. -/
def pinkSampleSpec (s : ℕ) (i : ℕ) : ℚ :=
  (pinkB0 s (i + 1) + pinkB1 s (i + 1) + pinkB2 s (i + 1) + pinkB3 s (i + 1) +
   pinkB4 s (i + 1) + pinkB5 s (i + 1) + pinkB6 s i + pinkWhite s i * 0.5362) * 0.11

/-- Modelled from the claim's words (refinement comparison): the pink
loop as the claim states it, where each emitted sample is
`(b0 + b1 + b2 + b3 + b4 + b5 + b6) * 0.11` with no other term in the
sum. -/
def pinkClaimLoop (s : ℕ) (b0 b1 b2 b3 b4 b5 b6 : ℚ) : ℕ → List ℚ
  | 0 => []
  | n + 1 =>
    let s' := lcgNext s
    let white := whiteVal s'
    let nb0 := 0.99886 * b0 + white * 0.0555179
    let nb1 := 0.99332 * b1 + white * 0.0750759
    let nb2 := 0.96900 * b2 + white * 0.1538520
    let nb3 := 0.86650 * b3 + white * 0.3104856
    let nb4 := 0.55000 * b4 + white * 0.5329522
    let nb5 := -0.7616 * b5 - white * 0.0168980
    let pink := nb0 + nb1 + nb2 + nb3 + nb4 + nb5 + b6
    (pink * 0.11) :: pinkClaimLoop s' nb0 nb1 nb2 nb3 nb4 nb5 (white * 0.115926) n

set_option maxRecDepth 4000 in
theorem pinkLoop_eq_spec (s : ℕ) (k n : ℕ) :
    pinkLoop (lcgNext^[k] s) (pinkB0 s k) (pinkB1 s k) (pinkB2 s k)
      (pinkB3 s k) (pinkB4 s k) (pinkB5 s k) (pinkB6 s k) n
    = (List.range n).map (fun j => pinkSampleSpec s (k + j)) := by
  induction n generalizing k with
  | zero => simp [pinkLoop]
  | succ n ih =>
    have hs : lcgNext (lcgNext^[k] s) = lcgNext^[k + 1] s :=
      (Function.iterate_succ_apply' lcgNext k s).symm
    simp only [pinkLoop, hs, List.range_succ_eq_map, List.map_cons, List.map_map]
    refine congr_arg₂ List.cons ?_ ?_
    · show _ = pinkSampleSpec s (k + 0)
      simp only [pinkSampleSpec, Nat.add_zero, pinkB0, pinkB1, pinkB2, pinkB3,
        pinkB4, pinkB5, pinkWhite]
    · have h6 : whiteVal (lcgNext^[k + 1] s) * 0.115926 = pinkB6 s (k + 1) := rfl
      rw [h6]
      have h0 : (0.99886 : ℚ) * pinkB0 s k + whiteVal (lcgNext^[k + 1] s) * 0.0555179
          = pinkB0 s (k + 1) := rfl
      have h1 : (0.99332 : ℚ) * pinkB1 s k + whiteVal (lcgNext^[k + 1] s) * 0.0750759
          = pinkB1 s (k + 1) := rfl
      have h2 : (0.96900 : ℚ) * pinkB2 s k + whiteVal (lcgNext^[k + 1] s) * 0.1538520
          = pinkB2 s (k + 1) := rfl
      have h3 : (0.86650 : ℚ) * pinkB3 s k + whiteVal (lcgNext^[k + 1] s) * 0.3104856
          = pinkB3 s (k + 1) := rfl
      have h4 : (0.55000 : ℚ) * pinkB4 s k + whiteVal (lcgNext^[k + 1] s) * 0.5329522
          = pinkB4 s (k + 1) := rfl
      have h5 : (-0.7616 : ℚ) * pinkB5 s k - whiteVal (lcgNext^[k + 1] s) * 0.0168980
          = pinkB5 s (k + 1) := rfl
      rw [h0, h1, h2, h3, h4, h5, ih (k + 1)]
      apply List.map_congr_left
      intro j _
      simp only [Function.comp]
      exact congrArg (pinkSampleSpec s) (by omega)

/-! ## Claim theorems: C1, C2, C3, C9 -/

/-- C1: Determinism — for every fixed seed, noise type (white, pink, or
brown), duration, and sample rate, two independent invocations of
`generateNoise` produce identical sample sequences, element for element
(the modelled entropy source has no influence once a seed is supplied). -/
theorem c1_determinism (t : String) (d r : ℚ) (s e₁ e₂ : ℕ)
    (_ht : t ∈ ["white", "pink", "brown"]) :
    generateNoise t d r (some s) e₁ = generateNoise t d r (some s) e₂ := rfl

theorem c1_determinism_witness :
    ("white" ∈ ["white", "pink", "brown"]) ∧
    generateNoise "white" 1 8 (some 1) 0 = generateNoise "white" 1 8 (some 1) 99 :=
  ⟨by decide, c1_determinism "white" 1 8 1 0 99 (by decide)⟩

/-! ### Binary64 facts about the PRNG state update

Integers below `2^53` are exactly representable and survive the
rounding unchanged; a value at or above `2^53` rounds to a multiple of
`2^(bitlength - 53)`, in particular to an even number. -/

theorem roundDouble_eq_self {n : ℕ} (h : n < 2 ^ 53) : roundDouble n = n := by
  have he : ulpExp n = 0 := by
    rw [ulpExp, Nat.findGreatest_eq_zero_iff]
    intro k hk _
    have h2 : (2 : ℕ) ^ 53 ≤ 2 ^ (52 + k) :=
      Nat.pow_le_pow_right (by norm_num) (by omega)
    omega
  rw [roundDouble, he, pow_zero]
  unfold roundToMultiple
  simp [Nat.mod_one, Nat.div_one]

theorem roundDouble_even {n : ℕ} (h : 2 ^ 53 ≤ n) : 2 ∣ roundDouble n := by
  have he : 1 ≤ ulpExp n :=
    Nat.le_findGreatest (by norm_num) (by simpa using h)
  have hd : (2 : ℕ) ∣ 2 ^ ulpExp n := dvd_pow_self 2 (by omega)
  rw [roundDouble]
  unfold roundToMultiple
  dsimp only
  split_ifs <;> exact Dvd.dvd.mul_left hd _

theorem roundDouble_ge {n : ℕ} (h : 2 ^ 53 ≤ n) : 2 ^ 53 ≤ roundDouble n := by
  have he : 1 ≤ ulpExp n :=
    Nat.le_findGreatest (by norm_num) (by simpa using h)
  have hp : 2 ^ (52 + ulpExp n) ≤ n :=
    Nat.findGreatest_spec (P := fun k => 2 ^ (52 + k) ≤ n) (m := 1)
      (by norm_num) (by simpa using h)
  have hq : 2 ^ 52 ≤ n / 2 ^ ulpExp n := by
    rw [Nat.le_div_iff_mul_le (pow_pos (by norm_num) _)]
    calc (2 : ℕ) ^ 52 * 2 ^ ulpExp n = 2 ^ (52 + ulpExp n) := (pow_add 2 52 _).symm
      _ ≤ n := hp
  have hbase : 2 ^ 53 ≤ n / 2 ^ ulpExp n * 2 ^ ulpExp n := by
    calc (2 : ℕ) ^ 53 = 2 ^ 52 * 2 ^ 1 := by norm_num
      _ ≤ n / 2 ^ ulpExp n * 2 ^ ulpExp n :=
        Nat.mul_le_mul hq (Nat.pow_le_pow_right (by norm_num) he)
  rw [roundDouble]
  unfold roundToMultiple
  dsimp only
  split_ifs <;>
    first
      | exact hbase
      | exact le_trans hbase (Nat.mul_le_mul (Nat.le_succ _) le_rfl)

/-- In the exact regime (`state * 1103515245 + 12345 < 2^53`, i.e.
states up to `8162278`) the binary64 update coincides with the exact
integer LCG formula. -/
theorem jsLcgNext_exact {s : ℕ} (h : s * 1103515245 + 12345 < 2 ^ 53) :
    jsLcgNext s = (s * 1103515245 + 12345) % 2 ^ 31 := by
  have h1 : s * 1103515245 < 2 ^ 53 := by omega
  rw [jsLcgNext, roundDouble_eq_self h1, roundDouble_eq_self h]
  norm_num

/-- The updated state never equals `2^31 - 1`: when both operations are
exact, the unique residue that could produce it (`230538014`) lies far
outside the exact regime; when a rounding occurs, the pre-mask value is
even while `2^31 - 1` is odd. -/
theorem jsLcgNext_ne_top (s : ℕ) : jsLcgNext s ≠ 2147483647 := by
  intro hbad
  by_cases hA : s * 1103515245 + 12345 < 2 ^ 53
  · have h1 : s * 1103515245 < 2 ^ 53 := by omega
    rw [jsLcgNext, roundDouble_eq_self h1, roundDouble_eq_self hA] at hbad
    have e1 : s * 1103515245 + 12345 ≡ 2147471302 + 12345 [MOD 2147483648] := by
      unfold Nat.ModEq
      rw [hbad]
    have e2 : s * 1103515245 ≡ 2147471302 [MOD 2147483648] :=
      Nat.ModEq.add_right_cancel' 12345 e1
    have hinv : (1103515245 * 1857678181 : ℕ) ≡ 1 [MOD 2147483648] := by
      unfold Nat.ModEq
      norm_num
    have e3 : s ≡ s * 1103515245 * 1857678181 [MOD 2147483648] := by
      have h3 := (Nat.ModEq.mul_left s hinv).symm
      rw [mul_one, ← mul_assoc] at h3
      exact h3
    have e4 : s * 1103515245 * 1857678181 ≡ 2147471302 * 1857678181 [MOD 2147483648] :=
      e2.mul_right 1857678181
    have e5 : s % 2147483648 = 230538014 := by
      have h5 := e3.trans e4
      unfold Nat.ModEq at h5
      rw [h5]
    clear e1 e2 e3 e4 hinv hbad
    have hge : 230538014 ≤ s := e5 ▸ Nat.mod_le s 2147483648
    have hmul : 230538014 * 1103515245 ≤ s * 1103515245 :=
      Nat.mul_le_mul_right _ hge
    omega
  · have hT : 2 ∣ roundDouble (roundDouble (s * 1103515245) + 12345) := by
      by_cases hB : s * 1103515245 < 2 ^ 53
      · rw [roundDouble_eq_self hB]
        exact roundDouble_even (by omega)
      · have hX : 2 ^ 53 ≤ roundDouble (s * 1103515245) :=
          roundDouble_ge (by omega)
        exact roundDouble_even (by omega)
    rw [jsLcgNext] at hbad
    omega

theorem ulpExp_prod : ulpExp 254402213001023430 = 5 := by
  rw [ulpExp, Nat.findGreatest_eq_iff]
  refine ⟨by norm_num, fun _ => by norm_num, ?_⟩
  intro k h5 h64
  have h6 : (2 : ℕ) ^ 58 ≤ 2 ^ (52 + k) :=
    Nat.pow_le_pow_right (by norm_num) (by omega)
  have h7 : (254402213001023430 : ℕ) < 2 ^ 58 := by norm_num
  omega

theorem ulpExp_sum : ulpExp 254402213001035769 = 5 := by
  rw [ulpExp, Nat.findGreatest_eq_iff]
  refine ⟨by norm_num, fun _ => by norm_num, ?_⟩
  intro k h5 h64
  have h6 : (2 : ℕ) ^ 58 ≤ 2 ^ (52 + k) :=
    Nat.pow_le_pow_right (by norm_num) (by omega)
  have h7 : (254402213001035769 : ℕ) < 2 ^ 58 := by norm_num
  omega

/-- `fl(230538014 * 1103515245)`: the 58-bit product rounds down by 6 to
a multiple of the ulp `2^5 = 32`. -/
theorem roundDouble_prod : roundDouble 254402213001023430 = 254402213001023424 := by
  rw [roundDouble, ulpExp_prod]
  unfold roundToMultiple
  norm_num

/-- `fl(fl(...) + 12345)`: the sum rounds up by 7 to the next multiple
of 32. -/
theorem roundDouble_sum : roundDouble 254402213001035769 = 254402213001035776 := by
  rw [roundDouble, ulpExp_sum]
  unfold roundToMultiple
  norm_num

theorem jsLcgNext_230538014 : jsLcgNext 230538014 = 0 := by
  rw [jsLcgNext]
  norm_num [roundDouble_prod, roundDouble_sum]

/-- C2 counterexample: the state update is not
`(state * 1103515245 + 12345) mod 2^31` under exact integer arithmetic.
From state `230538014` the product `230538014 * 1103515245 ≈ 2.54·10^17`
exceeds `2^53`, both binary64 operations round, and the real update
yields state `0` (output `0`), whereas the exact formula would yield
`2^31 - 1 = 2147483647`. -/
theorem c2_exactness_counterexample :
    jsLcgNext 230538014 = 0 ∧
    (230538014 * 1103515245 + 12345) % 2 ^ 31 = 2147483647 ∧
    jsLcgNext 230538014 ≠ (230538014 * 1103515245 + 12345) % 2 ^ 31 ∧
    (jsRandom 230538014).1 = 0 := by
  refine ⟨jsLcgNext_230538014, by norm_num, ?_, ?_⟩
  · rw [jsLcgNext_230538014]
    norm_num
  · rw [jsRandom, jsLcgNext_230538014]
    norm_num

/-- C2 (amended): `random()` updates the state by the binary64
evaluation of `(state * 1103515245 + 12345) & 0x7fffffff`; this equals
the exact-integer-arithmetic formula `(state * 1103515245 + 12345) mod
2^31` precisely on the regime `state * 1103515245 + 12345 < 2^53`
(states up to `8162278`), beyond which IEEE-754 rounding intervenes
(see the counterexample); and the returned value `state' / (2^31 - 1)`
always lies in `[0, 1)`, because the updated state never attains
`2^31 - 1`. -/
theorem c2_prng_contract (s : ℕ) :
    (s * 1103515245 + 12345 < 2 ^ 53 →
      (jsRandom s).2 = (s * 1103515245 + 12345) % 2 ^ 31) ∧
    (jsRandom s).1 = ((jsRandom s).2 : ℚ) / (2 ^ 31 - 1) ∧
    0 ≤ (jsRandom s).1 ∧ (jsRandom s).1 < 1 := by
  refine ⟨fun h => jsLcgNext_exact h, by norm_num [jsRandom], ?_, ?_⟩
  · apply div_nonneg _ (by norm_num)
    exact_mod_cast Nat.zero_le _
  · rw [jsRandom, div_lt_one (by norm_num)]
    have hlt : jsLcgNext s < 2147483648 := by
      unfold jsLcgNext
      exact Nat.mod_lt _ (by norm_num)
    have hne := jsLcgNext_ne_top s
    exact_mod_cast (by omega : jsLcgNext s < 2147483647)

theorem c2_prng_contract_witness :
    (42 * 1103515245 + 12345 < 2 ^ 53) ∧
    (jsRandom 42).2 = (42 * 1103515245 + 12345) % 2 ^ 31 :=
  ⟨by norm_num, (c2_prng_contract 42).1 (by norm_num)⟩

/-- C3 counterexample: with seed 0, duration 1 and sample rate 1, the
single pink sample produced by `generateNoise` differs from the value
the claim's formula (sum of `b0..b6` only, no direct `white` term)
prescribes. -/
theorem c3_pink_counterexample :
    generateNoise "pink" 1 1 (some 0) 0 ≠
      Except.ok (pinkClaimLoop (mkSeed (some 0) 0) 0 0 0 0 0 0 0 1) := by
  rw [generateNoise_pink 1 1 (some 0) 0 (by norm_num)]
  have h1 : (⌊(1 : ℚ) * 1⌋).toNat = 1 := by norm_num
  rw [h1]
  intro h
  have := Except.ok.inj h
  simp only [pinkLoop, pinkClaimLoop, List.cons.injEq, and_true] at this
  norm_num [whiteVal, mkSeed, lcgNext] at this

/-- C3 (amended): every sample of `generateNoise('pink', ...)` equals
`(b0 + b1 + b2 + b3 + b4 + b5 + b6 + white * 0.5362) * 0.11`, where
`b0..b5` start at 0 and are updated per sample with the pole
coefficients listed in the claim, `b6` is the previous iteration's
`white * 0.115926`, and additionally the current white draw scaled by
`0.5362` enters the sum. -/
theorem c3_pink_formula (d r : ℚ) (seed entropy : ℕ) (h : 0 ≤ ⌊d * r⌋) :
    ∃ buf, generateNoise "pink" d r (some seed) entropy = .ok buf ∧
      buf.length = (⌊d * r⌋).toNat ∧
      ∀ i, i < buf.length → buf.getD i 0 = pinkSampleSpec seed i := by
  refine ⟨pinkLoop seed 0 0 0 0 0 0 0 (⌊d * r⌋).toNat,
    generateNoise_pink d r (some seed) entropy h, pinkLoop_length _ _ _ _ _ _ _ _ _, ?_⟩
  intro i hi
  rw [pinkLoop_length] at hi
  have h0 : pinkLoop seed 0 0 0 0 0 0 0 (⌊d * r⌋).toNat
      = (List.range (⌊d * r⌋).toNat).map (fun j => pinkSampleSpec seed (0 + j)) :=
    pinkLoop_eq_spec seed 0 (⌊d * r⌋).toNat
  rw [h0]
  rw [List.getD_eq_getElem _ _ (by simpa using hi)]
  simp [hi]

theorem c3_pink_formula_witness :
    (0 ≤ ⌊(1 : ℚ) * 2⌋) ∧
    ∃ buf, generateNoise "pink" 1 2 (some 0) 0 = .ok buf ∧
      buf.length = (⌊(1 : ℚ) * 2⌋).toNat ∧
      ∀ i, i < buf.length → buf.getD i 0 = pinkSampleSpec 0 i :=
  ⟨by norm_num, c3_pink_formula 1 2 0 0 (by norm_num)⟩

/-- C9 counterexample: for the recognized type `white` with negative
duration `-1` (and sample rate 44100), `generateNoise` does not return
an empty buffer — the construction of the output buffer fails (the
`RangeError` of `new Float32Array(-44100)`). -/
theorem c9_counterexample :
    generateNoise "white" (-1) 44100 (some 1) 0 = Except.error GenError.invalidLength ∧
    generateNoise "white" (-1) 44100 (some 1) 0 ≠ Except.ok [] := by
  have h : (⌊(-1 : ℚ) * 44100⌋ : ℤ) < 0 := by norm_num
  rw [generateNoise_neg_length _ _ _ _ _ h]
  exact ⟨rfl, by simp⟩

/-- C9 (amended): `generateNoise` fails with the range error when
`⌊d·r⌋ < 0`; when `⌊d·r⌋ ≥ 0` it fails, with the invalid-argument
(unknown-type) error, exactly when the noise type is not one of white,
pink, brown; and for a recognized type with `⌊d·r⌋ = 0` (in particular
`d = 0`, `r = 0`, or `d ≤ 0 < r`) it returns the empty buffer. -/
theorem c9_error_behaviour (t : String) (d r : ℚ) (seed : Option ℕ) (e : ℕ) :
    (⌊d * r⌋ < 0 → generateNoise t d r seed e = .error .invalidLength) ∧
    (0 ≤ ⌊d * r⌋ →
      ((∃ u, generateNoise t d r seed e = .error (.unknownType u)) ↔
        t ∉ ["white", "pink", "brown"])) ∧
    (t ∈ ["white", "pink", "brown"] → ⌊d * r⌋ = 0 →
      generateNoise t d r seed e = .ok []) := by
  refine ⟨generateNoise_neg_length t d r seed e, ?_, ?_⟩
  · intro h0
    by_cases h1 : t = "white"
    · subst h1
      rw [generateNoise_white d r seed e h0]
      simp
    · by_cases h2 : t = "brown"
      · subst h2
        rw [generateNoise_brown d r seed e h0]
        simp
      · by_cases h3 : t = "pink"
        · subst h3
          rw [generateNoise_pink d r seed e h0]
          simp
        · rw [generateNoise_unknown t d r seed e h0 h1 h2 h3]
          simp [h1, h2, h3]
  · intro ht hz
    have h0 : 0 ≤ ⌊d * r⌋ := le_of_eq hz.symm
    have hn : (⌊d * r⌋).toNat = 0 := by omega
    rcases List.mem_cons.mp ht with h1 | ht
    · subst h1; rw [generateNoise_white d r seed e h0, hn]; rfl
    rcases List.mem_cons.mp ht with h1 | ht
    · subst h1; rw [generateNoise_pink d r seed e h0, hn]; rfl
    rcases List.mem_cons.mp ht with h1 | ht
    · subst h1; rw [generateNoise_brown d r seed e h0, hn]; rfl
    · simp at ht

theorem c9_error_behaviour_witness :
    ((⌊(2 : ℚ) * 3⌋ < 0 → generateNoise "pink" 2 3 (some 0) 0 = .error .invalidLength) ∧
     (0 ≤ ⌊(2 : ℚ) * 3⌋ →
       ((∃ u, generateNoise "pink" 2 3 (some 0) 0 = .error (.unknownType u)) ↔
         "pink" ∉ ["white", "pink", "brown"])) ∧
     ("pink" ∈ ["white", "pink", "brown"] → ⌊(2 : ℚ) * 3⌋ = 0 →
       generateNoise "pink" 2 3 (some 0) 0 = .ok [])) :=
  c9_error_behaviour "pink" 2 3 (some 0) 0

/-! ## Waveform encoder (`src/wavWriter.ts`) -/

/-- `Math.max(-1, Math.min(1, buffer[i]))`. -/
def clampUnit (x : ℚ) : ℚ := max (-1) (min 1 x)

/-- JavaScript `ToInt32` truncation of a (small) fractional value toward
zero, as applied by the bitwise operators `& 0xFF` and `>> 8`. -/
def jsTruncQ (q : ℚ) : ℤ := if q < 0 then ⌈q⌉ else ⌊q⌋

/-- `const int16 = sample < 0 ? sample * 0x8000 : sample * 0x7FFF`,
truncated to an integer by the subsequent bitwise operators. -/
def pcm16 (x : ℚ) : ℤ :=
  let sample := clampUnit x
  if sample < 0 then jsTruncQ (sample * 32768) else jsTruncQ (sample * 32767)

/-- `int16 & 0xFF` (two's-complement low byte). -/
def pcmLow (x : ℚ) : ℕ := ((pcm16 x) % 256).toNat

/-- `(int16 >> 8) & 0xFF` (two's-complement high byte). -/
def pcmHigh (x : ℚ) : ℕ := ((pcm16 x) % 65536 / 256).toNat

/-- `float32ToPCM(buffer, channels)`: two little-endian bytes per sample
in buffer order.  The `channels` argument is accepted and unused, as in
the source. -/
def float32ToPCM (buffer : List ℚ) (channels : ℕ) : List ℕ :=
  match buffer with
  | [] => []
  | x :: rest => pcmLow x :: pcmHigh x :: float32ToPCM rest channels

/-- `applyEnvelope(buffer, fadeInSec, fadeOutSec, sampleRate)`. -/
def applyEnvelope (buffer : List ℚ) (fadeInSec fadeOutSec sampleRate : ℚ) : List ℚ :=
  let fadeInSamples : ℤ := ⌊fadeInSec * sampleRate⌋
  let fadeOutSamples : ℤ := ⌊fadeOutSec * sampleRate⌋
  (List.range buffer.length).map (fun (i : ℕ) =>
    let gain1 : ℚ := if (i : ℤ) < fadeInSamples then (i : ℚ) / ((fadeInSamples : ℤ) : ℚ) else 1
    let gain2 : ℚ :=
      if (buffer.length : ℤ) - fadeOutSamples ≤ (i : ℤ) then
        gain1 * ((((buffer.length : ℤ) - (i : ℤ)) : ℚ) / ((fadeOutSamples : ℤ) : ℚ))
      else gain1
    buffer.getD i 0 * gain2)

/-- `convertToStereo(monoBuffer, spread)`. -/
def convertToStereo : List ℚ → ℚ → List ℚ
  | [], _ => []
  | sample :: rest, spread =>
    let leftGain := 1 - spread * 0.5
    let rightGain := 1 - spread * 0.5
    sample * leftGain :: sample * rightGain :: convertToStereo rest spread

/-- `Buffer.writeUInt16LE`. -/
def u16le (v : ℕ) : List ℕ := [v % 256, v / 256 % 256]

/-- `Buffer.writeUInt32LE` (the source never passes a value at or above
`2^32`, where the Node API would throw instead of wrapping). -/
def u32le (v : ℕ) : List ℕ :=
  [v % 256, v / 256 % 256, v / 65536 % 256, v / 16777216 % 256]

/-- `writeWav({data, sampleRate, outPath, channels})`: the byte sequence
persisted to `outPath` — 44-byte header followed by the PCM payload. -/
def writeWav (data : List ℚ) (sampleRate : ℕ) (channels : ℕ) : List ℕ :=
  let pcmData := float32ToPCM data channels
  let totalLen := pcmData.length + 44
  let bytesPerSample := 2
  let blockAlign := channels * bytesPerSample
  let byteRate := sampleRate * blockAlign
  [82, 73, 70, 70] ++ u32le (totalLen - 8) ++
  [87, 65, 86, 69] ++ [102, 109, 116, 32] ++
  u32le 16 ++ u16le 1 ++ u16le channels ++ u32le sampleRate ++ u32le byteRate ++
  u16le blockAlign ++ u16le 16 ++
  [100, 97, 116, 97] ++ u32le pcmData.length ++ pcmData

/-- Little-endian 16-bit read-back from a byte sequence. -/
def readU16LE (bytes : List ℕ) (off : ℕ) : ℕ :=
  bytes.getD off 0 + 256 * bytes.getD (off + 1) 0

/-- Little-endian 32-bit read-back from a byte sequence. -/
def readU32LE (bytes : List ℕ) (off : ℕ) : ℕ :=
  bytes.getD off 0 + 256 * bytes.getD (off + 1) 0 +
  65536 * bytes.getD (off + 2) 0 + 16777216 * bytes.getD (off + 3) 0

theorem float32ToPCM_length (buffer : List ℚ) (channels : ℕ) :
    (float32ToPCM buffer channels).length = 2 * buffer.length := by
  induction buffer with
  | nil => rfl
  | cons x rest ih => simp [float32ToPCM, ih]; ring

theorem float32ToPCM_getD (buffer : List ℚ) (channels : ℕ) :
    ∀ i, i < buffer.length →
      (float32ToPCM buffer channels).getD (2 * i) 0 = pcmLow (buffer.getD i 0) ∧
      (float32ToPCM buffer channels).getD (2 * i + 1) 0 = pcmHigh (buffer.getD i 0) := by
  induction buffer with
  | nil => intro i hi; simp at hi
  | cons x rest ih =>
    intro i hi
    cases i with
    | zero => exact ⟨rfl, rfl⟩
    | succ i =>
      have h2 : 2 * (i + 1) = (2 * i + 1) + 1 := by ring
      rw [h2]
      simp only [float32ToPCM, List.getD_cons_succ]
      exact ih i (Nat.lt_of_succ_lt_succ hi)

theorem float32ToPCM_channels (buffer : List ℚ) (ch₁ ch₂ : ℕ) :
    float32ToPCM buffer ch₁ = float32ToPCM buffer ch₂ := by
  induction buffer with
  | nil => rfl
  | cons x rest ih => simp [float32ToPCM, ih]

theorem pcm16_eq (x : ℚ) :
    pcm16 x = if max (-1) (min 1 x) < 0
      then ⌈max (-1) (min 1 x) * 32768⌉ else ⌊max (-1) (min 1 x) * 32767⌋ := by
  unfold pcm16 clampUnit jsTruncQ
  by_cases h : max (-1) (min 1 x) < 0
  · rw [if_pos h, if_pos h, if_pos (mul_neg_of_neg_of_pos h (by norm_num))]
  · rw [if_neg h, if_neg h,
      if_neg (not_lt.mpr (mul_nonneg (not_lt.mp h) (by norm_num)))]

/-- C7: PCM conversion — `float32ToPCM` emits exactly 2 bytes per input
sample in buffer order, little-endian, each sample clamped to `[-1, 1]`
then scaled by 32768 if negative and 32767 otherwise and truncated to an
integer; the emitted bytes do not depend on the `channels` argument. -/
theorem c7_pcm_conversion (buffer : List ℚ) (ch₁ ch₂ : ℕ) :
    float32ToPCM buffer ch₁ = float32ToPCM buffer ch₂ ∧
    (float32ToPCM buffer ch₁).length = 2 * buffer.length ∧
    ∀ i, i < buffer.length →
      (float32ToPCM buffer ch₁).getD (2 * i) 0 =
        ((if max (-1) (min 1 (buffer.getD i 0)) < 0
          then ⌈max (-1) (min 1 (buffer.getD i 0)) * 32768⌉
          else ⌊max (-1) (min 1 (buffer.getD i 0)) * 32767⌋) % 256).toNat ∧
      (float32ToPCM buffer ch₁).getD (2 * i + 1) 0 =
        ((if max (-1) (min 1 (buffer.getD i 0)) < 0
          then ⌈max (-1) (min 1 (buffer.getD i 0)) * 32768⌉
          else ⌊max (-1) (min 1 (buffer.getD i 0)) * 32767⌋) % 65536 / 256).toNat := by
  refine ⟨float32ToPCM_channels buffer ch₁ ch₂, float32ToPCM_length buffer ch₁, ?_⟩
  intro i hi
  have h := float32ToPCM_getD buffer ch₁ i hi
  rw [h.1, h.2, pcmLow, pcmHigh, pcm16_eq]
  exact ⟨rfl, rfl⟩

theorem c7_pcm_conversion_witness :
    0 < ([(3/4 : ℚ)]).length ∧
    (float32ToPCM [(3/4 : ℚ)] 1).getD (2 * 0) 0 =
      ((if max (-1) (min 1 (([(3/4 : ℚ)]).getD 0 0)) < 0
        then ⌈max (-1) (min 1 (([(3/4 : ℚ)]).getD 0 0)) * 32768⌉
        else ⌊max (-1) (min 1 (([(3/4 : ℚ)]).getD 0 0)) * 32767⌋) % 256).toNat :=
  ⟨by norm_num, ((c7_pcm_conversion [(3/4 : ℚ)] 1 2).2.2 0 (by norm_num)).1⟩

/-- C8 counterexample: `spread` is not a no-op — with `spread = 1` the
mono sample `1` is written to both slots as `0.5`, not `1`. -/
theorem c8_stereo_counterexample :
    convertToStereo [(1 : ℚ)] 1 ≠ [(1 : ℚ), 1] ∧
    convertToStereo [(1 : ℚ)] 1 = [(1/2 : ℚ), 1/2] := by
  norm_num [convertToStereo]

theorem convertToStereo_getD (mono : List ℚ) (spread : ℚ) :
    ∀ i, i < mono.length →
      (convertToStereo mono spread).getD (2 * i) 0 = mono.getD i 0 * (1 - spread * 0.5) ∧
      (convertToStereo mono spread).getD (2 * i + 1) 0 = mono.getD i 0 * (1 - spread * 0.5) := by
  induction mono with
  | nil => intro i hi; simp at hi
  | cons x rest ih =>
    intro i hi
    cases i with
    | zero => exact ⟨rfl, rfl⟩
    | succ i =>
      have h2 : 2 * (i + 1) = (2 * i + 1) + 1 := by ring
      rw [h2]
      simp only [convertToStereo, List.getD_cons_succ]
      exact ih i (Nat.lt_of_succ_lt_succ hi)

/-- C8 (amended): `convertToStereo` returns a buffer of length `2n` in
which slots `2i` and `2i+1` both hold the i-th mono sample scaled by the
common gain `1 - spread * 0.5`; the gain is the same for both channels,
and for `spread = 0` (the default) each sample is duplicated exactly, so
`[a, b, c]` becomes `[a, a, b, b, c, c]`. -/
theorem c8_stereo_expansion (mono : List ℚ) (spread : ℚ) :
    (convertToStereo mono spread).length = 2 * mono.length ∧
    (∀ i, i < mono.length →
      (convertToStereo mono spread).getD (2 * i) 0 = mono.getD i 0 * (1 - spread * 0.5) ∧
      (convertToStereo mono spread).getD (2 * i + 1) 0 = mono.getD i 0 * (1 - spread * 0.5)) ∧
    (∀ a b c : ℚ, convertToStereo [a, b, c] 0 = [a, a, b, b, c, c]) := by
  refine ⟨?_, convertToStereo_getD mono spread, ?_⟩
  · induction mono with
    | nil => rfl
    | cons x rest ih => simp only [convertToStereo, List.length_cons, ih]; ring
  · intro a b c
    simp [convertToStereo]

theorem c8_stereo_expansion_witness :
    0 < ([(5 : ℚ), 7]).length ∧
    (convertToStereo [(5 : ℚ), 7] 1).getD (2 * 0) 0 =
      ([(5 : ℚ), 7]).getD 0 0 * (1 - 1 * 0.5) ∧
    (convertToStereo [(5 : ℚ), 7] 1).getD (2 * 0 + 1) 0 =
      ([(5 : ℚ), 7]).getD 0 0 * (1 - 1 * 0.5) :=
  ⟨by norm_num, (c8_stereo_expansion [(5 : ℚ), 7] 1).2.1 0 (by norm_num)⟩

/-- C6: Header correctness — for a buffer of `N` mono samples written
with `channels = 1` at sample rate `R` (within the ranges the Node
buffer API accepts), the container is `44 + 2N` bytes, the RIFF size
field at offset 4 is `36 + 2N`, the fmt chunk records size 16, format
tag 1, channels 1, sample rate `R`, byte rate `2R`, block align 2 and
bits-per-sample 16, the data-chunk size field is `2N`, the four chunk
tags read `RIFF`, `WAVE`, `fmt ` and `data`, and the PCM payload
immediately follows the 44-byte header. -/
theorem c6_header_correctness (data : List ℚ) (R : ℕ)
    (hR : R < 2147483648) (hN : 2 * data.length + 44 < 4294967296) :
    (writeWav data R 1).length = 44 + 2 * data.length ∧
    (writeWav data R 1).take 4 = [82, 73, 70, 70] ∧
    readU32LE (writeWav data R 1) 4 = 36 + 2 * data.length ∧
    ((writeWav data R 1).drop 8).take 4 = [87, 65, 86, 69] ∧
    ((writeWav data R 1).drop 12).take 4 = [102, 109, 116, 32] ∧
    readU32LE (writeWav data R 1) 16 = 16 ∧
    readU16LE (writeWav data R 1) 20 = 1 ∧
    readU16LE (writeWav data R 1) 22 = 1 ∧
    readU32LE (writeWav data R 1) 24 = R ∧
    readU32LE (writeWav data R 1) 28 = 2 * R ∧
    readU16LE (writeWav data R 1) 32 = 2 ∧
    readU16LE (writeWav data R 1) 34 = 16 ∧
    ((writeWav data R 1).drop 36).take 4 = [100, 97, 116, 97] ∧
    readU32LE (writeWav data R 1) 40 = 2 * data.length ∧
    (writeWav data R 1).drop 44 = float32ToPCM data 1 := by
  have hp : (float32ToPCM data 1).length = 2 * data.length :=
    float32ToPCM_length data 1
  simp only [writeWav, u32le, u16le, hp, List.cons_append, List.nil_append]
  refine ⟨?_, ?_, ?_, ?_, ?_, ?_, ?_, ?_, ?_, ?_, ?_, ?_, ?_, ?_, ?_⟩
  · simp [hp]; omega
  · rfl
  · simp only [readU32LE, List.getD_cons_succ, List.getD_cons_zero]
    omega
  · rfl
  · rfl
  · simp only [readU32LE, List.getD_cons_succ, List.getD_cons_zero]
  · simp only [readU16LE, List.getD_cons_succ, List.getD_cons_zero]
  · simp only [readU16LE, List.getD_cons_succ, List.getD_cons_zero]
  · simp only [readU32LE, List.getD_cons_succ, List.getD_cons_zero]
    omega
  · simp only [readU32LE, List.getD_cons_succ, List.getD_cons_zero]
    omega
  · simp only [readU16LE, List.getD_cons_succ, List.getD_cons_zero]
  · simp only [readU16LE, List.getD_cons_succ, List.getD_cons_zero]
  · rfl
  · simp only [readU32LE, List.getD_cons_succ, List.getD_cons_zero]
    omega
  · rfl

theorem c6_header_correctness_witness :
    (8 : ℕ) < 2147483648 ∧ 2 * ([(1/2 : ℚ)]).length + 44 < 4294967296 ∧
    readU32LE (writeWav [(1/2 : ℚ)] 8 1) 4 = 36 + 2 * ([(1/2 : ℚ)]).length :=
  ⟨by norm_num, by norm_num,
    (c6_header_correctness [(1/2 : ℚ)] 8 (by norm_num) (by norm_num)).2.2.1⟩

/-- Per-index unfolding of `applyEnvelope`. -/
theorem applyEnvelope_getD (buffer : List ℚ) (fi fo sr : ℚ) (i : ℕ)
    (hi : i < buffer.length) :
    (applyEnvelope buffer fi fo sr).getD i 0 =
      buffer.getD i 0 *
        (if (buffer.length : ℤ) - ⌊fo * sr⌋ ≤ (i : ℤ) then
          (if (i : ℤ) < ⌊fi * sr⌋ then (i : ℚ) / ((⌊fi * sr⌋ : ℤ) : ℚ) else 1) *
            ((((buffer.length : ℤ) - (i : ℤ)) : ℚ) / ((⌊fo * sr⌋ : ℤ) : ℚ))
         else
          (if (i : ℤ) < ⌊fi * sr⌋ then (i : ℚ) / ((⌊fi * sr⌋ : ℤ) : ℚ) else 1)) := by
  unfold applyEnvelope
  rw [List.getD_eq_getElem _ _ (by simpa using hi)]
  simp [List.getElem_map, List.getElem_range]

/-- C10: fade-envelope endpoints — for a non-empty buffer, a fade-in of
at least one sample forces the first output sample to exactly 0; and
when the fade-out spans `n ≥ 1` samples and the fade-in region does not
cover the last sample, the last output sample is the last input sample
times `1/n`, hence nonzero whenever the last input sample is nonzero. -/
theorem c10_envelope_endpoints (buffer : List ℚ) (fi fo sr : ℚ)
    (hne : buffer ≠ []) :
    (1 ≤ ⌊fi * sr⌋ → (applyEnvelope buffer fi fo sr).getD 0 0 = 0) ∧
    (1 ≤ ⌊fo * sr⌋ → ¬ ((buffer.length : ℤ) - 1 < ⌊fi * sr⌋) →
      (applyEnvelope buffer fi fo sr).getD (buffer.length - 1) 0 =
        buffer.getD (buffer.length - 1) 0 * (1 / ((⌊fo * sr⌋ : ℤ) : ℚ)) ∧
      (buffer.getD (buffer.length - 1) 0 ≠ 0 →
        (applyEnvelope buffer fi fo sr).getD (buffer.length - 1) 0 ≠ 0)) := by
  have hlen : 0 < buffer.length := List.length_pos.mpr hne
  constructor
  · intro hfi
    rw [applyEnvelope_getD buffer fi fo sr 0 hlen]
    have h0 : ((0 : ℕ) : ℤ) < ⌊fi * sr⌋ := by omega
    rw [if_pos h0]
    by_cases hcond : (buffer.length : ℤ) - ⌊fo * sr⌋ ≤ ((0 : ℕ) : ℤ)
    · rw [if_pos hcond]; simp
    · rw [if_neg hcond]; simp
  · intro hfo hfi
    have hi : buffer.length - 1 < buffer.length := by omega
    have hcast : ((buffer.length - 1 : ℕ) : ℤ) = (buffer.length : ℤ) - 1 := by
      omega
    have heq : (applyEnvelope buffer fi fo sr).getD (buffer.length - 1) 0 =
        buffer.getD (buffer.length - 1) 0 * (1 / ((⌊fo * sr⌋ : ℤ) : ℚ)) := by
      rw [applyEnvelope_getD buffer fi fo sr (buffer.length - 1) hi, hcast]
      rw [if_neg hfi]
      rw [if_pos (show (buffer.length : ℤ) - ⌊fo * sr⌋ ≤ (buffer.length : ℤ) - 1 by
        omega)]
      push_cast
      ring
    exact ⟨heq, fun hnz => by
      rw [heq]
      apply mul_ne_zero hnz
      have : (1 : ℚ) ≤ ((⌊fo * sr⌋ : ℤ) : ℚ) := by exact_mod_cast hfo
      positivity⟩

theorem c10_envelope_endpoints_witness :
    (([(1/2 : ℚ), 1/3] : List ℚ) ≠ []) ∧ (1 ≤ ⌊(1 : ℚ) * 1⌋) ∧
    (¬ ((([(1/2 : ℚ), 1/3] : List ℚ).length : ℤ) - 1 < ⌊(1 : ℚ) * 1⌋)) ∧
    (applyEnvelope [(1/2 : ℚ), 1/3] 1 1 1).getD 0 0 = 0 ∧
    (applyEnvelope [(1/2 : ℚ), 1/3] 1 1 1).getD
        (([(1/2 : ℚ), 1/3] : List ℚ).length - 1) 0 =
      ([(1/2 : ℚ), 1/3] : List ℚ).getD (([(1/2 : ℚ), 1/3] : List ℚ).length - 1) 0 *
        (1 / ((⌊(1 : ℚ) * 1⌋ : ℤ) : ℚ)) :=
  ⟨by simp, by norm_num, by norm_num,
   (c10_envelope_endpoints [(1/2 : ℚ), 1/3] 1 1 1 (by simp)).1 (by norm_num),
   ((c10_envelope_endpoints [(1/2 : ℚ), 1/3] 1 1 1 (by simp)).2 (by norm_num)
     (by norm_num)).1⟩

/-! ## Ambient layer synthesizers (`src/ambientLayers.ts`)

Sample values here live in `ℝ` because the synthesis uses `Math.sin`,
`Math.exp` and `Math.tanh`. Out-of-range typed-array reads (which would
produce `NaN` in JavaScript when a layer buffer is shorter than the
base) are outside the model; the layer generators themselves only ever
write in range.  The `description` string of a layer result (a
`toFixed(2)` rendering of the intensity) is not modelled. -/

open scoped Classical

/-- `LayerOptions`. -/
structure LayerOptions where
  intensity : ℝ
  variation : ℝ
  seed : Option ℕ

/-- `AmbientLayerResult` (without the human-readable description
string). -/
structure AmbientLayerResult where
  name : String
  buffer : List ℝ

/-- `SeededRandom.random()` over `ℝ`-valued samples. -/
noncomputable def randR (s : ℕ) : ℝ × ℕ := (((lcgNext s : ℝ)) / 2147483647, lcgNext s)

/-- `buffer[k] += v` (in-range by construction wherever used). -/
def bumpAt (buf : List ℝ) (k : ℕ) (v : ℝ) : List ℝ :=
  buf.set k (buf.getD k 0 + v)

/-- An inner stamping loop
`for (j = 0; j < cnt; j++) buffer[start + j] += f(j)`: the JavaScript
loops bound `cnt` by `min(eventSamples, length - start)` through their
`(i + j) < buffer.length` guard. -/
def stampAdd (buf : List ℝ) (start cnt : ℕ) (f : ℕ → ℝ) : List ℝ :=
  (List.range cnt).foldl (fun b j => bumpAt b (start + j) (f j)) buf

/-- The inner droplet loop of `generateRainLayer` (draws one PRNG value
per sample for the noise component). -/
noncomputable def rainDropletLoop (sampleRate intensity dropletIntensity frequency : ℝ)
    (i cnt : ℕ) (st : ℕ × List ℝ) : ℕ × List ℝ :=
  (List.range cnt).foldl (fun (st : ℕ × List ℝ) (j : ℕ) =>
    let rv := (randR st.1).1
    let rng := (randR st.1).2
    let t : ℝ := (j : ℝ) / sampleRate
    let envelope := Real.exp (-t * 150) * (1 - t / 0.01)
    let oscillation := Real.sin (2 * Real.pi * frequency * t)
    let noise := (rv * 2 - 1) * 0.2
    (rng, bumpAt st.2 (i + j)
      ((oscillation * 0.8 + noise * 0.2) * envelope * dropletIntensity * intensity))) st

/-- `generateRainLayer(baseNoise, sampleRate, options)`. -/
noncomputable def generateRainLayer (baseNoise : List ℝ) (sampleRate : ℝ)
    (options : LayerOptions) (entropy : ℕ) : AmbientLayerResult :=
  let len := baseNoise.length
  let dropletRate := 20 + options.intensity * 80
  let dropletSamples := (⌊(0.01 : ℝ) * sampleRate⌋).toNat
  let final := (List.range len).foldl (fun (st : ℕ × List ℝ) i =>
    let noiseIntensity := |baseNoise.getD i 0|
    let rainChance := (dropletRate / sampleRate) * (1 + noiseIntensity * options.variation)
    let rv := (randR st.1).1
    let rng := (randR st.1).2
    if rv < rainChance then
      let dv := (randR rng).1
      let rng1 := (randR rng).2
      let dropletIntensity := 0.1 + dv * 0.4
      let fv := (randR rng1).1
      let rng2 := (randR rng1).2
      let frequency := 2000 + fv * 3000
      rainDropletLoop sampleRate options.intensity dropletIntensity frequency i
        (min dropletSamples (len - i)) (rng2, st.2)
    else (rng, st.2))
    (mkSeed options.seed entropy, List.replicate len 0)
  { name := "pacific_rain", buffer := final.2 }

/-- The outer sample walk of `generateBirdLayer`; `i` advances past a
rendered call's span (`i += callSamples` then the loop's `i++`). -/
noncomputable def birdLoop (baseNoise : List ℝ)
    (sampleRate intensity variation callRate : ℝ) (len : ℕ)
    (i : ℕ) (rng : ℕ) (buf : List ℝ) : List ℝ :=
  if h : i < len then
    let noiseLevel := |baseNoise.getD i 0|
    let callChance := (callRate / sampleRate) * (1 + noiseLevel * variation * 2)
    let cv := (randR rng).1
    let rng1 := (randR rng).2
    if cv < callChance then
      let bt := (randR rng1).1
      let rng2 := (randR rng1).2
      let sel : ℝ × ℝ × ℝ × ℕ :=
        if bt < 0.3 then
          (2000 + (randR rng2).1 * 1000, 200, 0.3, (randR rng2).2)
        else if bt < 0.6 then
          (400 + (randR rng2).1 * 300, 50, 0.15, (randR rng2).2)
        else
          (1500 + (randR rng2).1 * 2000, 400, 0.1, (randR rng2).2)
      let frequency := sel.1
      let modulation := sel.2.1
      let callLength := sel.2.2.1
      let rng3 := sel.2.2.2
      let callSamples := (⌊callLength * sampleRate⌋).toNat
      let buf1 := stampAdd buf i (min callSamples (len - i)) (fun j =>
        let callTime : ℝ := (j : ℝ) / sampleRate
        let envelope := Real.sin (Real.pi * callTime / callLength)
        let freq := frequency + Real.sin (2 * Real.pi * 3 * callTime) * modulation
        Real.sin (2 * Real.pi * freq * callTime) * envelope * 0.3 * intensity)
      birdLoop baseNoise sampleRate intensity variation callRate len
        (i + callSamples + 1) rng3 buf1
    else
      birdLoop baseNoise sampleRate intensity variation callRate len (i + 1) rng1 buf
  else buf
termination_by len - i
decreasing_by all_goals omega

/-- `generateBirdLayer(baseNoise, sampleRate, options)`.  The source
computes `callDuration = 0.2 + rng.random() * 0.8` before the loop and
never uses it; the draw still advances the PRNG state. -/
noncomputable def generateBirdLayer (baseNoise : List ℝ) (sampleRate : ℝ)
    (options : LayerOptions) (entropy : ℕ) : AmbientLayerResult :=
  let rng0 := mkSeed options.seed entropy
  let len := baseNoise.length
  let callRate := 0.5 + options.intensity * 2
  let _callDuration : ℝ := 0.2 + (randR rng0).1 * 0.8
  let rng1 := (randR rng0).2
  { name := "pacific_birds",
    buffer := birdLoop baseNoise sampleRate options.intensity options.variation
      callRate len 0 rng1 (List.replicate len 0) }

/-- `generateWaterLayer(baseNoise, sampleRate, options)`. State per
sample: PRNG register, lowpass `filterState`, output buffer.  Note the
continuous-flow component is an assignment `buffer[i] = ...` while
bubbles are added with `+=`. -/
noncomputable def generateWaterLayer (baseNoise : List ℝ) (sampleRate : ℝ)
    (options : LayerOptions) (entropy : ℕ) : AmbientLayerResult :=
  let len := baseNoise.length
  let baseFlow : ℝ := 0.3
  let bubbleRate := 5 + options.intensity * 15
  let final := (List.range len).foldl (fun (st : ℕ × ℝ × List ℝ) i =>
    let rng := st.1
    let filterState := st.2.1
    let buf := st.2.2
    let noiseLevel := |baseNoise.getD i 0|
    let rv := (randR rng).1
    let rng1 := (randR rng).2
    let rawNoise := rv * 2 - 1
    let filterState1 := filterState * 0.95 + rawNoise * 0.05
    let flowIntensity := baseFlow + noiseLevel * options.variation * 0.5
    let buf1 := buf.set i (filterState1 * flowIntensity * options.intensity * 0.4)
    let bubbleChance := bubbleRate / sampleRate
    let bv := (randR rng1).1
    let rng2 := (randR rng1).2
    if bv < bubbleChance then
      let fv := (randR rng2).1
      let rng3 := (randR rng2).2
      let bubbleFreq := 800 + fv * 1200
      let dv := (randR rng3).1
      let rng4 := (randR rng3).2
      let bubbleDuration := 0.05 + dv * 0.1
      let bubbleSamples := (⌊bubbleDuration * sampleRate⌋).toNat
      (rng4, filterState1, stampAdd buf1 i (min bubbleSamples (len - i)) (fun j =>
        let bubbleTime : ℝ := (j : ℝ) / sampleRate
        Real.sin (2 * Real.pi * bubbleFreq * bubbleTime) * Real.exp (-bubbleTime * 10)
          * 0.2 * options.intensity))
    else (rng2, filterState1, buf1))
    (mkSeed options.seed entropy, 0, List.replicate len 0)
  { name := "running_water", buffer := final.2.2 }

/-! ## Layer mixer (`mixAmbientLayers`) -/

/-- The weighted sum before soft limiting: base scaled by `baseLevel`,
then each layer added scaled by `layerLevel / layers.length`. -/
noncomputable def mixPre (baseNoise : List ℝ) (layers : List AmbientLayerResult)
    (baseLevel layerLevel : ℝ) : List ℝ :=
  let mixed := (List.range baseNoise.length).map (fun i => baseNoise.getD i 0 * baseLevel)
  layers.foldl (fun mixed layer =>
    let layerWeight := layerLevel / (layers.length : ℝ)
    (List.range mixed.length).map (fun i =>
      mixed.getD i 0 + layer.buffer.getD i 0 * layerWeight)) mixed

/-- The per-sample soft limiter:
`if (Math.abs(x) > 0.95) x = x > 0 ? Math.tanh(x) : -Math.tanh(-x)`. -/
noncomputable def softLimitSample (x : ℝ) : ℝ :=
  if |x| > 0.95 then (if x > 0 then Real.tanh x else -Real.tanh (-x)) else x

/-- `mixAmbientLayers(baseNoise, layers, baseLevel, layerLevel)`. -/
noncomputable def mixAmbientLayers (baseNoise : List ℝ) (layers : List AmbientLayerResult)
    (baseLevel layerLevel : ℝ) : List ℝ :=
  (mixPre baseNoise layers baseLevel layerLevel).map softLimitSample

/-! ### Length preservation lemmas -/

theorem bumpAt_length (buf : List ℝ) (k : ℕ) (v : ℝ) :
    (bumpAt buf k v).length = buf.length := by
  simp [bumpAt]

theorem stampAdd_length (buf : List ℝ) (start cnt : ℕ) (f : ℕ → ℝ) :
    (stampAdd buf start cnt f).length = buf.length := by
  unfold stampAdd
  generalize List.range cnt = l
  induction l generalizing buf with
  | nil => rfl
  | cons a l ih =>
    rw [List.foldl_cons, ih]
    simp [bumpAt]

theorem rainDropletLoop_length (sampleRate intensity dropletIntensity frequency : ℝ)
    (i cnt : ℕ) (st : ℕ × List ℝ) :
    ((rainDropletLoop sampleRate intensity dropletIntensity frequency i cnt st).2).length
      = st.2.length := by
  unfold rainDropletLoop
  generalize List.range cnt = l
  induction l generalizing st with
  | nil => rfl
  | cons a l ih =>
    rw [List.foldl_cons, ih]
    simp [bumpAt]

theorem foldl_buffer_length {σ α : Type} (proj : σ → List ℝ) (f : σ → α → σ)
    (hf : ∀ st a, (proj (f st a)).length = (proj st).length) :
    ∀ (l : List α) (st : σ), (proj (l.foldl f st)).length = (proj st).length := by
  intro l
  induction l with
  | nil => intro st; rfl
  | cons a l ih => intro st; rw [List.foldl_cons, ih, hf]

theorem generateRainLayer_length (baseNoise : List ℝ) (sampleRate : ℝ)
    (options : LayerOptions) (entropy : ℕ) :
    (generateRainLayer baseNoise sampleRate options entropy).buffer.length
      = baseNoise.length := by
  unfold generateRainLayer
  dsimp only
  rw [foldl_buffer_length Prod.snd _ ?_ ]
  · simp
  · intro st a
    dsimp only
    split_ifs with h
    · rw [rainDropletLoop_length]
    · rfl

theorem birdLoop_length (baseNoise : List ℝ)
    (sampleRate intensity variation callRate : ℝ) (len : ℕ) :
    ∀ (i rng : ℕ) (buf : List ℝ),
      (birdLoop baseNoise sampleRate intensity variation callRate len i rng buf).length
        = buf.length := by
  have H : ∀ (m i rng : ℕ) (buf : List ℝ), len - i ≤ m →
      (birdLoop baseNoise sampleRate intensity variation callRate len i rng buf).length
        = buf.length := by
    intro m
    induction m with
    | zero =>
      intro i rng buf hm
      rw [birdLoop]
      have hi : ¬ i < len := by omega
      simp [hi]
    | succ m ih =>
      intro i rng buf hm
      rw [birdLoop]
      by_cases hi : i < len
      · simp only [dif_pos hi]
        split_ifs with hcv hb1 hb2 <;>
          first
            | (rw [ih _ _ _ ?_, stampAdd_length]; omega)
            | (rw [ih _ _ _ ?_]; omega)
      · simp [hi]
  intro i rng buf
  exact H (len - i) i rng buf le_rfl

theorem generateBirdLayer_length (baseNoise : List ℝ) (sampleRate : ℝ)
    (options : LayerOptions) (entropy : ℕ) :
    (generateBirdLayer baseNoise sampleRate options entropy).buffer.length
      = baseNoise.length := by
  unfold generateBirdLayer
  dsimp only
  rw [birdLoop_length]
  simp

theorem generateWaterLayer_length (baseNoise : List ℝ) (sampleRate : ℝ)
    (options : LayerOptions) (entropy : ℕ) :
    (generateWaterLayer baseNoise sampleRate options entropy).buffer.length
      = baseNoise.length := by
  unfold generateWaterLayer
  dsimp only
  rw [foldl_buffer_length (fun (st : ℕ × ℝ × List ℝ) => st.2.2) _ ?_ ]
  · simp
  · intro st a
    dsimp only
    split_ifs with h
    · rw [stampAdd_length]
      simp
    · simp

theorem mixPre_length (baseNoise : List ℝ) (layers : List AmbientLayerResult)
    (baseLevel layerLevel : ℝ) :
    (mixPre baseNoise layers baseLevel layerLevel).length = baseNoise.length := by
  unfold mixPre
  dsimp only
  rw [foldl_buffer_length (fun (l : List ℝ) => l) _ ?_ ]
  · simp
  · intro st a
    simp

theorem mixAmbientLayers_length (baseNoise : List ℝ) (layers : List AmbientLayerResult)
    (baseLevel layerLevel : ℝ) :
    (mixAmbientLayers baseNoise layers baseLevel layerLevel).length = baseNoise.length := by
  unfold mixAmbientLayers
  rw [List.length_map, mixPre_length]

/-! ## Claim theorems: C4 and C5 -/

theorem abs_tanh_le_one (x : ℝ) : |Real.tanh x| ≤ 1 := by
  rw [Real.tanh_eq_sinh_div_cosh, abs_div, abs_of_pos (Real.cosh_pos x),
    div_le_one (Real.cosh_pos x), abs_le]
  constructor
  · have h := Real.sinh_lt_cosh (-x)
    rw [Real.sinh_neg, Real.cosh_neg] at h
    linarith
  · exact le_of_lt (Real.sinh_lt_cosh x)

theorem mixAmbientLayers_getD (baseNoise : List ℝ) (layers : List AmbientLayerResult)
    (baseLevel layerLevel : ℝ) (i : ℕ)
    (hi : i < (mixPre baseNoise layers baseLevel layerLevel).length) :
    (mixAmbientLayers baseNoise layers baseLevel layerLevel).getD i 0 =
      softLimitSample ((mixPre baseNoise layers baseLevel layerLevel).getD i 0) := by
  unfold mixAmbientLayers
  rw [List.getD_eq_getElem _ _ (by simpa using hi), List.getElem_map,
    List.getD_eq_getElem _ _ hi]

/-- C4: Mixer boundedness and soft limiting — for every base buffer,
list of layers, and levels in `[0, 1]`, each output sample whose
pre-limit magnitude exceeds 0.95 equals `sign(x) * tanh(|x|)` of the
pre-limit value `x`, samples of magnitude at most 0.95 are returned
untouched, and every emitted sample has magnitude at most 1. -/
theorem c4_mixer_soft_limit (base : List ℝ) (layers : List AmbientLayerResult)
    (baseLevel layerLevel : ℝ)
    (_hb0 : 0 ≤ baseLevel) (_hb1 : baseLevel ≤ 1)
    (_hl0 : 0 ≤ layerLevel) (_hl1 : layerLevel ≤ 1) :
    ∀ i, i < base.length →
      (0.95 < |(mixPre base layers baseLevel layerLevel).getD i 0| →
        (mixAmbientLayers base layers baseLevel layerLevel).getD i 0 =
          Real.sign ((mixPre base layers baseLevel layerLevel).getD i 0) *
            Real.tanh |(mixPre base layers baseLevel layerLevel).getD i 0|) ∧
      (|(mixPre base layers baseLevel layerLevel).getD i 0| ≤ 0.95 →
        (mixAmbientLayers base layers baseLevel layerLevel).getD i 0 =
          (mixPre base layers baseLevel layerLevel).getD i 0) ∧
      |(mixAmbientLayers base layers baseLevel layerLevel).getD i 0| ≤ 1 := by
  intro i hi
  have hm : i < (mixPre base layers baseLevel layerLevel).length := by
    rw [mixPre_length]; exact hi
  rw [mixAmbientLayers_getD base layers baseLevel layerLevel i hm]
  set x := (mixPre base layers baseLevel layerLevel).getD i 0 with hx
  unfold softLimitSample
  refine ⟨?_, ?_, ?_⟩
  · intro hgt
    rw [if_pos hgt]
    by_cases hpos : x > 0
    · rw [if_pos hpos, Real.sign_of_pos hpos, abs_of_pos hpos, one_mul]
    · have hneg : x < 0 := by
        rcases lt_trichotomy x 0 with h | h | h
        · exact h
        · rw [h] at hgt; simp at hgt; linarith
        · exact absurd h hpos
      rw [if_neg hpos, Real.sign_of_neg hneg, abs_of_neg hneg]
      ring
  · intro hle
    rw [if_neg (not_lt.mpr hle)]
  · by_cases hgt : |x| > 0.95
    · rw [if_pos hgt]
      by_cases hpos : x > 0
      · rw [if_pos hpos]; exact abs_tanh_le_one x
      · rw [if_neg hpos, abs_neg]; exact abs_tanh_le_one (-x)
    · rw [if_neg hgt]
      push_neg at hgt
      linarith

theorem c4_mixer_soft_limit_witness :
    (0 : ℝ) ≤ 0.7 ∧ (0.7 : ℝ) ≤ 1 ∧ (0 : ℝ) ≤ 0.3 ∧ (0.3 : ℝ) ≤ 1 ∧
    (0 < ([(2 : ℝ)]).length) ∧
    (|(mixPre [(2 : ℝ)] [] 0.7 0.3).getD 0 0| ≤ 0.95 →
      (mixAmbientLayers [(2 : ℝ)] [] 0.7 0.3).getD 0 0 =
        (mixPre [(2 : ℝ)] [] 0.7 0.3).getD 0 0) :=
  ⟨by norm_num, by norm_num, by norm_num, by norm_num, by norm_num,
    (c4_mixer_soft_limit [(2 : ℝ)] [] 0.7 0.3 (by norm_num) (by norm_num)
      (by norm_num) (by norm_num) 0 (by norm_num)).2.1⟩

/-- C5: Length invariant — `generateNoise` returns exactly `⌊d·r⌋`
samples for positive duration and rate; each ambient layer generator
returns a buffer of exactly the base buffer's length (for the bird
layer, with a positive sample rate, without which the source loop does
not terminate); and the mixer returns a buffer of exactly the base
buffer's length. -/
theorem c5_length_invariant :
    (∀ (d r : ℚ) (seed : Option ℕ) (entropy : ℕ) (t : String),
      0 < d → 0 < r → t ∈ ["white", "pink", "brown"] →
      ∃ buf, generateNoise t d r seed entropy = .ok buf ∧
        buf.length = (⌊d * r⌋).toNat) ∧
    (∀ (base : List ℝ) (sr : ℝ) (opts : LayerOptions) (e : ℕ),
      (generateRainLayer base sr opts e).buffer.length = base.length) ∧
    (∀ (base : List ℝ) (sr : ℝ) (opts : LayerOptions) (e : ℕ),
      (generateBirdLayer base sr opts e).buffer.length = base.length) ∧
    (∀ (base : List ℝ) (sr : ℝ) (opts : LayerOptions) (e : ℕ),
      (generateWaterLayer base sr opts e).buffer.length = base.length) ∧
    (∀ (base : List ℝ) (layers : List AmbientLayerResult) (bl ll : ℝ),
      (mixAmbientLayers base layers bl ll).length = base.length) := by
  refine ⟨?_, generateRainLayer_length, generateBirdLayer_length,
    generateWaterLayer_length, mixAmbientLayers_length⟩
  intro d r seed entropy t hd hr ht
  have h0 : 0 ≤ ⌊d * r⌋ := Int.floor_nonneg.mpr (le_of_lt (mul_pos hd hr))
  rcases List.mem_cons.mp ht with h1 | ht
  · subst h1
    exact ⟨_, generateNoise_white d r seed entropy h0, whiteLoop_length _ _⟩
  rcases List.mem_cons.mp ht with h1 | ht
  · subst h1
    exact ⟨_, generateNoise_pink d r seed entropy h0,
      pinkLoop_length _ _ _ _ _ _ _ _ _⟩
  rcases List.mem_cons.mp ht with h1 | ht
  · subst h1
    exact ⟨_, generateNoise_brown d r seed entropy h0, brownLoop_length _ _ _⟩
  · simp at ht

theorem c5_length_invariant_witness :
    (0 : ℚ) < 1 ∧ (0 : ℚ) < 8 ∧ ("white" ∈ ["white", "pink", "brown"]) ∧
    ∃ buf, generateNoise "white" 1 8 (some 42) 0 = .ok buf ∧
      buf.length = (⌊(1 : ℚ) * 8⌋).toNat :=
  ⟨by norm_num, by norm_num, by decide,
    c5_length_invariant.1 1 8 (some 42) 0 "white" (by norm_num) (by norm_num)
      (by decide)⟩

end Brickwave
